import Mathlib

/-!
Verification of the Miniconf MQTT client (miniconf.py).

The Python source is shallowly embedded: the mutable `Miniconf` object
(together with the asyncio futures it creates) becomes an explicit `World`
state threaded through pure functions; Python dictionaries become
association lists with insertion-order semantics; exceptions raised by the
code become `Except.error` values naming the Python exception class; the
external collaborators `json.loads` / `json.dumps` are parameters.
-/

set_option linter.unusedVariables false

deriving instance DecidableEq for Except

namespace Miniconf

/-! ## Python dictionaries as ordered association lists -/

/-- Dictionary lookup `d[k]` (as an `Option`: `none` models `KeyError`). -/
def dictGet {α : Type} : List (Nat × α) → Nat → Option α
  | [], _ => none
  | (k, a) :: rest, k' => if k = k' then some a else dictGet rest k'

/-- Dictionary assignment `d[k] = a`: update in place when the key exists
(Python preserves insertion order), append otherwise. -/
def setKey {α : Type} : List (Nat × α) → Nat → α → List (Nat × α)
  | [], k, a => [(k, a)]
  | (k', b) :: rest, k, a =>
      if k' = k then (k', a) :: rest else (k', b) :: setKey rest k a

/-- Dictionary deletion `del d[k]`: removes the first (for a genuine dict,
the unique) entry with key `k`. -/
def delKey {α : Type} : List (Nat × α) → Nat → List (Nat × α)
  | [], _ => []
  | (k', b) :: rest, k => if k' = k then rest else (k', b) :: delKey rest k

/-! ## Byte-level correlation-data codec

`request_id.to_bytes(4, 'big')` and `int.from_bytes(bytes, 'big')` from the
source, on bytes modelled as `Nat`s below 256. -/

/-- Big-endian encoding `n.to_bytes(len, 'big')`, as a total function; the
caller (`command`) separately models the `OverflowError` Python raises when
`n` does not fit. -/
def toBytesBE : Nat → Nat → List Nat
  | 0, _ => []
  | len + 1, n => toBytesBE len (n / 256) ++ [n % 256]

/-- Big-endian decoding `int.from_bytes(bs, 'big')`; Python accepts any
length, including lengths other than 4. -/
def intFromBytesBE (bs : List Nat) : Nat :=
  bs.foldl (fun acc b => acc * 256 + b) 0

/-! ## Session state

The fields of the `Miniconf` object, plus a store of all asyncio futures the
session ever created.  A future is pending (`none`) or resolved (`some v`);
callers keep their future's index into the store after `_handle_response`
deletes the inflight entry, which is how a caller observes its response. -/

/-- State of one `Miniconf` session; `V` is the type of decoded JSON values. -/
structure World (V : Type) where
  uuid : String
  pfx : String
  request_id : Nat
  inflight : List (Nat × Nat)
  nextFut : Nat
  futures : List (Nat × Option V)
  deriving DecidableEq

/-- The constructor `Miniconf.__init__`: counter at 0, empty inflight map,
and the private response-topic subscription (returned alongside). -/
def mkSession (V : Type) (uuid pfx : String) : World V × String :=
  (⟨uuid, pfx, 0, [], 0, []⟩, pfx ++ "/response/" ++ uuid)

/-! ## The response handler `_handle_response` -/

/-- MQTT v5 message properties as gmqtt presents them: `correlation_data`
is absent, or a list of byte strings of which the handler takes element 0. -/
structure Properties where
  correlation_data : Option (List (List Nat))
  deriving DecidableEq

/-- An inbound message on the response topic: its properties and payload. -/
structure Msg where
  props : Properties
  payload : String
  deriving DecidableEq

/-- Python exceptions that escape `_handle_response` (none are caught). -/
inductive HandlerError
  /-- KeyError from properties lookup when correlation_data is absent. -/
  | keyErrorCorrelation
  /-- IndexError from taking element 0 of an empty correlation_data list. -/
  | indexError
  /-- KeyError from the inflight lookup when the id is not registered. -/
  | keyErrorInflight
  /-- json.JSONDecodeError from json.loads on the payload. -/
  | jsonDecodeError
  /-- asyncio.InvalidStateError from set_result on a non-pending future. -/
  | invalidState
  deriving DecidableEq

/-- The callback `_handle_response`.  Faithful to Python evaluation order in
the statement `self.inflight[request_id].set_result(json.loads(payload))`:
the inflight subscript is evaluated first (KeyError for an unknown id), then
the argument `json.loads(payload)` (decode error), then the call; the
`del` runs last.  An `Except.error` means the exception propagated out of
the callback. -/
def handle_response {V : Type} (jsonLoads : String → Option V)
    (w : World V) (props : Properties) (payload : String) :
    Except HandlerError (World V) :=
  match props.correlation_data with
  | none => .error .keyErrorCorrelation
  | some bss =>
    match bss with
    | [] => .error .indexError
    | bs :: _ =>
      match dictGet w.inflight (intFromBytesBE bs) with
      | none => .error .keyErrorInflight
      | some fid =>
        match jsonLoads payload with
        | none => .error .jsonDecodeError
        | some v =>
          match dictGet w.futures fid with
          | some none =>
              .ok { w with
                      futures := setKey w.futures fid (some v),
                      inflight := delKey w.inflight (intFromBytesBE bs) }
          | _ => .error .invalidState

/-- Delivery of one inbound message.  When the handler raises, the state is
unchanged: in the source every mutation (`set_result`, `del`) happens after
the last possible raise point, so an escaping exception leaves the object
as it was. -/
def handleMessage {V : Type} (jsonLoads : String → Option V)
    (w : World V) (m : Msg) : World V :=
  match handle_response jsonLoads w m.props m.payload with
  | .ok w' => w'
  | .error _ => w

/-- Delivery of a batch of inbound messages in arrival order. -/
def processAll {V : Type} (jsonLoads : String → Option V)
    (w : World V) (msgs : List Msg) : World V :=
  msgs.foldl (handleMessage jsonLoads) w

/-! ## The request path `command` -/

/-- Python exceptions that can escape `command` before the publish. -/
inductive CommandError
  /-- The `assert request_id not in self.inflight` failed. -/
  | assertionError (id : Nat)
  /-- OverflowError from `request_id.to_bytes(4, 'big')` with id ≥ 2^32. -/
  | overflowError (id : Nat)
  deriving DecidableEq

/-- The outbound MQTT publish issued by `command`. -/
structure PublishMsg where
  topic : String
  payload : String
  qos : Nat
  retain : Bool
  response_topic : String
  correlation_data : List Nat
  deriving DecidableEq

/-- Observable steps of one `command` invocation, in program order. -/
inductive CmdEvent
  /-- `self.inflight[request_id] = fut` -/
  | registered (id : Nat) (fid : Nat)
  /-- `self.client.publish(...)` -/
  | published (msg : PublishMsg)
  deriving DecidableEq

/-- Whether an event is the registration step. -/
def CmdEvent.isRegistered : CmdEvent → Bool
  | .registered _ _ => true
  | _ => false

/-- Whether an event is the publish step. -/
def CmdEvent.isPublished : CmdEvent → Bool
  | .published _ => true
  | _ => false

/-- The coroutine `command(path, value, retain)` up to its `await`: returns
the state after the call (also when an exception escapes — the counter
increment at line 79 has already happened), the trace of observable events,
and either the exception or (request id, future id, publish message); the
caller then awaits the future `fid` in `futures`. -/
def command {V : Type} (jsonDumps : V → String) (w : World V)
    (path : String) (value : V) (retain : Bool) :
    World V × List CmdEvent × Except CommandError (Nat × Nat × PublishMsg) :=
  let setting_topic := w.pfx ++ "/settings/" ++ path
  let response_topic := w.pfx ++ "/response/" ++ w.uuid
  let request_id := w.request_id
  let w₁ : World V := { w with request_id := w.request_id + 1 }
  match dictGet w₁.inflight request_id with
  | some _ => (w₁, [], .error (.assertionError request_id))
  | none =>
    if request_id < 2 ^ 32 then
      let correlation_data := toBytesBE 4 request_id
      let payload := jsonDumps value
      let fid := w₁.nextFut
      let w₂ : World V := { w₁ with
          nextFut := fid + 1,
          futures := w₁.futures ++ [(fid, none)],
          inflight := setKey w₁.inflight request_id fid }
      let msg : PublishMsg :=
        ⟨setting_topic, payload, 0, retain, response_topic, correlation_data⟩
      (w₂, [.registered request_id fid, .published msg],
        .ok (request_id, fid, msg))
    else
      (w₁, [], .error (.overflowError request_id))

/-- The identifiers allocated (line 78: `request_id = self.request_id`) by a
sequence of `command` calls, in call order — the counter advances whether or
not the call later raises. -/
def runIds {V : Type} (jsonDumps : V → String) :
    World V → List (String × V × Bool) → List Nat
  | _, [] => []
  | w, (p, v, r) :: rest =>
      w.request_id :: runIds jsonDumps (command jsonDumps w p v r).1 rest

/-! ## The CLI loop `configure_settings`

`main.configure_settings` iterates the KEY=VALUE settings in order, sends
each and awaits its response (a decoded JSON object whose `code` field is
read), and returns early with the first nonzero code.  The decoded responses
are abstracted as a function from (path, value) to the response. -/

/-- A decoded device response as the CLI reads it: its `code` status field. -/
structure DevResponse where
  code : Int
  deriving DecidableEq

/-- The body of `configure_settings`: returns the value passed to
`sys.exit` and the list of settings actually sent (each is sent before its
response is examined, so the first failing one is sent). -/
def configure_settings (respond : String → String → DevResponse) :
    List (String × String) → Int × List (String × String)
  | [] => (0, [])
  | (path, value) :: rest =>
      let r := respond path value
      if r.code ≠ 0 then (r.code, [(path, value)])
      else
        let (c, sent) := configure_settings respond rest
        (c, (path, value) :: sent)

/-! ## Scenario material

A response message as the device would send it, and concrete sample data
used to instantiate the theorems below on closed inputs. -/

/-- A well-formed device response message: the 4-byte big-endian encoding of
`id` as the single correlation-data value, and the given payload. -/
def mkRespMsg (id : Nat) (pl : String) : Msg :=
  ⟨⟨some [toBytesBE 4 id]⟩, pl⟩

/-- One pending request as the routing theorems see it: its request id, the
index of its future, and the payload its response will carry. -/
structure Pend where
  id : Nat
  fid : Nat
  pl : String
  deriving DecidableEq

/-- The response message answering pending request `x`. -/
def Pend.msg (x : Pend) : Msg := mkRespMsg x.id x.pl

/-- A concrete decoder standing in for `json.loads` on numeric payloads. -/
def jsonNat : String → Option Nat
  | "10" => some 10
  | "11" => some 11
  | "42" => some 42
  | _ => none

/-- A concrete encoder standing in for `json.dumps` on numeric values. -/
def dumpNat : Nat → String := toString

/-- A session with two pending requests 0 and 1 (futures 0 and 1). -/
def wPending2 : World Nat :=
  ⟨"u", "dt/dev", 2, [(0, 0), (1, 1)], 2, [(0, none), (1, none)]⟩

/-- An idle session whose identifier counter has reached 2^32 - 1. -/
def wAtMax : World Nat := ⟨"u", "p", 4294967295, [], 0, []⟩

/-- An idle session whose identifier counter has reached 2^32. -/
def wOver : World Nat := ⟨"u", "p", 4294967296, [], 0, []⟩

/-- A session whose counter has returned to an identifier (0) that is still
in flight, so the next `command` fails its duplicate-identifier assert. -/
def wDup : World Nat := ⟨"u", "p", 0, [(0, 5)], 6, [(5, none)]⟩

/-! ## Dictionary lemmas -/

theorem dictGet_setKey_self {α : Type} (l : List (Nat × α)) (k : Nat) (a : α) :
    dictGet (setKey l k a) k = some a := by
  induction l with
  | nil => simp [setKey, dictGet]
  | cons p t ih =>
      obtain ⟨k', b⟩ := p
      by_cases hk : k' = k <;> simp [setKey, dictGet, hk, ih]

theorem dictGet_setKey_ne {α : Type} (l : List (Nat × α)) (k k' : Nat) (a : α)
    (hne : k' ≠ k) : dictGet (setKey l k a) k' = dictGet l k' := by
  induction l with
  | nil => simp [setKey, dictGet, Ne.symm hne]
  | cons p t ih =>
      obtain ⟨k₀, b⟩ := p
      by_cases hk : k₀ = k <;> by_cases hk' : k₀ = k' <;>
        simp_all [setKey, dictGet]

theorem dictGet_delKey_ne {α : Type} (l : List (Nat × α)) (k k' : Nat)
    (hne : k' ≠ k) : dictGet (delKey l k) k' = dictGet l k' := by
  induction l with
  | nil => simp [delKey]
  | cons p t ih =>
      obtain ⟨k₀, b⟩ := p
      by_cases hk : k₀ = k <;> by_cases hk' : k₀ = k' <;>
        simp_all [delKey, dictGet]

theorem dictGet_eq_none_of_not_mem {α : Type} (l : List (Nat × α)) (k : Nat)
    (h : k ∉ l.map Prod.fst) : dictGet l k = none := by
  induction l with
  | nil => rfl
  | cons p t ih =>
      obtain ⟨k₀, b⟩ := p
      simp only [List.map_cons, List.mem_cons, not_or] at h
      simp [dictGet, ih h.2, Ne.symm h.1]

theorem dictGet_delKey_self {α : Type} (l : List (Nat × α)) (k : Nat)
    (hnd : (l.map Prod.fst).Nodup) : dictGet (delKey l k) k = none := by
  induction l with
  | nil => rfl
  | cons p t ih =>
      obtain ⟨k₀, b⟩ := p
      simp only [List.map_cons, List.nodup_cons] at hnd
      by_cases hk : k₀ = k
      · subst hk
        simpa [delKey] using dictGet_eq_none_of_not_mem t k₀ hnd.1
      · simp [delKey, dictGet, hk, ih hnd.2]

theorem length_delKey {α : Type} (l : List (Nat × α)) (k : Nat)
    (h : (dictGet l k).isSome) : (delKey l k).length + 1 = l.length := by
  induction l with
  | nil => simp [dictGet] at h
  | cons p t ih =>
      obtain ⟨k₀, b⟩ := p
      by_cases hk : k₀ = k
      · simp [delKey, hk]
      · simp only [dictGet, hk, if_neg] at h
        simp [delKey, hk, ih h]

/-! ## Correlation-data codec lemmas -/

theorem intFromBytesBE_toBytesBE (len n : Nat) :
    intFromBytesBE (toBytesBE len n) = n % 256 ^ len := by
  induction len generalizing n with
  | zero => simp [toBytesBE, intFromBytesBE, Nat.mod_one]
  | succ k ih =>
      have hfold : intFromBytesBE (toBytesBE k (n / 256) ++ [n % 256]) =
          intFromBytesBE (toBytesBE k (n / 256)) * 256 + n % 256 := by
        simp [intFromBytesBE, List.foldl_append]
      have hpow : (256 : Nat) ^ (k + 1) = 256 * 256 ^ k := by ring
      calc intFromBytesBE (toBytesBE (k + 1) n)
          = intFromBytesBE (toBytesBE k (n / 256)) * 256 + n % 256 := hfold
        _ = (n / 256 % 256 ^ k) * 256 + n % 256 := by rw [ih]
        _ = n % 256 + 256 * (n / 256 % 256 ^ k) := by ring
        _ = n % (256 * 256 ^ k) := (Nat.mod_mul).symm
        _ = n % 256 ^ (k + 1) := by rw [hpow]

theorem roundtrip_corr (n : Nat) (h : n < 2 ^ 32) :
    intFromBytesBE (toBytesBE 4 n) = n := by
  have h4 : (256 : Nat) ^ 4 = 2 ^ 32 := by norm_num
  rw [intFromBytesBE_toBytesBE, h4, Nat.mod_eq_of_lt h]

/-! ## Response-handler lemmas -/

theorem handle_response_ok_inv {V : Type} (j : String → Option V) (w : World V)
    (props : Properties) (pl : String) (w' : World V)
    (h : handle_response j w props pl = .ok w') :
    ∃ bs t fid v,
      props.correlation_data = some (bs :: t) ∧
      dictGet w.inflight (intFromBytesBE bs) = some fid ∧
      j pl = some v ∧
      dictGet w.futures fid = some none ∧
      w' = { w with futures := setKey w.futures fid (some v),
                    inflight := delKey w.inflight (intFromBytesBE bs) } := by
  unfold handle_response at h
  split at h
  · cases h
  · split at h
    · cases h
    · split at h
      · cases h
      · split at h
        · cases h
        · split at h
          · injection h with h'
            subst h'
            rename_i x3 bss bs t hcd x2 fid hinf x1 v hj x0 hfut
            exact ⟨bs, t, fid, v, hcd, hinf, hj, hfut, rfl⟩
          · cases h

theorem handleMessage_ok {V : Type} (j : String → Option V) (w : World V)
    (fid : Nat) (pl : String) (v : V) (t : List (List Nat)) (bs : List Nat)
    (hinf : dictGet w.inflight (intFromBytesBE bs) = some fid)
    (hj : j pl = some v)
    (hfut : dictGet w.futures fid = some none) :
    handleMessage j w ⟨⟨some (bs :: t)⟩, pl⟩ =
      { w with futures := setKey w.futures fid (some v),
               inflight := delKey w.inflight (intFromBytesBE bs) } := by
  unfold handleMessage handle_response
  simp [hinf, hj, hfut]

theorem handleMessage_resolved {V : Type} (j : String → Option V) (w : World V)
    (m : Msg) (fid : Nat) (v : V)
    (h : dictGet w.futures fid = some (some v)) :
    dictGet (handleMessage j w m).futures fid = some (some v) := by
  unfold handleMessage
  cases hr : handle_response j w m.props m.payload with
  | error e => exact h
  | ok w' =>
    obtain ⟨bs, t, fid₀, v₀, hcd, hinf, hj, hfut, hw⟩ :=
      handle_response_ok_inv j w m.props m.payload w' hr
    subst hw
    have hne : fid ≠ fid₀ := by
      intro he
      rw [he, hfut] at h
      cases h
    simpa [dictGet_setKey_ne _ _ _ _ hne] using h

theorem processAll_resolved {V : Type} (j : String → Option V) (msgs : List Msg) :
    ∀ (w : World V) (fid : Nat) (v : V),
    dictGet w.futures fid = some (some v) →
    dictGet (processAll j w msgs).futures fid = some (some v) := by
  induction msgs with
  | nil => intro w fid v h; exact h
  | cons m rest ih =>
      intro w fid v h
      simp only [processAll, List.foldl_cons]
      exact ih _ _ _ (handleMessage_resolved j w m fid v h)

/-! ## Request-path lemmas -/

theorem command_request_id {V : Type} (jd : V → String) (w : World V)
    (p : String) (v : V) (r : Bool) :
    ((command jd w p v r).1).request_id = w.request_id + 1 := by
  simp only [command]
  split
  · rfl
  · split <;> rfl

theorem command_ok_inv {V : Type} (jd : V → String) (w : World V)
    (p : String) (v : V) (r : Bool) (out : Nat × Nat × PublishMsg)
    (h : (command jd w p v r).2.2 = .ok out) :
    dictGet w.inflight w.request_id = none ∧ w.request_id < 2 ^ 32 ∧
    out.1 = w.request_id ∧ out.2.1 = w.nextFut ∧
    out.2.2 = ⟨w.pfx ++ "/settings/" ++ p, jd v, 0, r,
               w.pfx ++ "/response/" ++ w.uuid, toBytesBE 4 w.request_id⟩ ∧
    (command jd w p v r).2.1 =
      [.registered w.request_id w.nextFut, .published out.2.2] ∧
    (command jd w p v r).1 =
      { w with request_id := w.request_id + 1,
               nextFut := w.nextFut + 1,
               futures := w.futures ++ [(w.nextFut, none)],
               inflight := setKey w.inflight w.request_id w.nextFut } := by
  simp only [command] at h ⊢
  split at h
  · cases h
  · rename_i x0 hnone
    split at h
    · injection h with h'
      subst h'
      rename_i hlt
      rw [if_pos hlt]
      exact ⟨hnone, hlt, rfl, rfl, rfl, rfl, rfl⟩
    · cases h

theorem command_error_inv {V : Type} (jd : V → String) (w : World V)
    (p : String) (v : V) (r : Bool) (e : CommandError)
    (h : (command jd w p v r).2.2 = .error e) :
    (command jd w p v r).1 = { w with request_id := w.request_id + 1 } ∧
    (command jd w p v r).2.1 = [] := by
  simp only [command] at h ⊢
  split at h
  · rename_i val heq
    simp [heq]
  · rename_i x0 hnone
    split at h
    · cases h
    · rename_i hlt
      rw [if_neg hlt]
      exact ⟨rfl, rfl⟩

/-! ## Demultiplexing: each pending request receives its own response

The induction is over the arrival order of the responses, an arbitrary
permutation of the well-formed responses to the pending requests. -/

theorem processAll_spec {V : Type} (j : String → Option V) (msgs : List Msg) :
    ∀ (pairs : List Pend) (w : World V),
    msgs.Perm (pairs.map Pend.msg) →
    (pairs.map Pend.id).Nodup →
    (pairs.map Pend.fid).Nodup →
    (∀ x ∈ pairs, x.id < 2 ^ 32 ∧
      dictGet w.inflight x.id = some x.fid ∧
      dictGet w.futures x.fid = some none ∧ (j x.pl).isSome) →
    w.inflight.length = pairs.length →
    (∀ x ∈ pairs,
      dictGet (processAll j w msgs).futures x.fid = some (j x.pl)) ∧
    (processAll j w msgs).inflight = [] := by
  induction msgs with
  | nil =>
      intro pairs w hperm hnid hnfid hx hlen
      have hp0 : pairs = [] := by
        have hl := hperm.length_eq
        simp only [List.length_nil, List.length_map] at hl
        exact List.length_eq_zero.mp hl.symm
      subst hp0
      refine ⟨fun x hx' => absurd hx' (List.not_mem_nil x), ?_⟩
      simpa [processAll] using List.length_eq_zero.mp hlen
  | cons m rest ih =>
      intro pairs w hperm hnid hnfid hx hlen
      have hm : m ∈ pairs.map Pend.msg := hperm.mem_iff.mp (List.mem_cons_self m rest)
      obtain ⟨y, hy, hym⟩ := List.mem_map.mp hm
      have hpe : pairs.Perm (y :: pairs.erase y) := List.perm_cons_erase hy
      have hrest : rest.Perm ((pairs.erase y).map Pend.msg) := by
        have h1 : (m :: rest).Perm (Pend.msg y :: (pairs.erase y).map Pend.msg) :=
          hperm.trans (hpe.map Pend.msg)
        rw [hym] at h1
        exact h1.cons_inv
      obtain ⟨hyid, hyinf, hyfut, hyj⟩ := hx y hy
      obtain ⟨v, hv⟩ := Option.isSome_iff_exists.mp hyj
      have hw₁ : handleMessage j w (Pend.msg y) =
          { w with futures := setKey w.futures y.fid (some v),
                   inflight := delKey w.inflight (intFromBytesBE (toBytesBE 4 y.id)) } :=
        handleMessage_ok j w y.fid y.pl v [] (toBytesBE 4 y.id)
          (by rw [roundtrip_corr _ hyid]; exact hyinf) hv hyfut
      rw [roundtrip_corr _ hyid] at hw₁
      have hnid' : ((y :: pairs.erase y).map Pend.id).Nodup := (hpe.map Pend.id).nodup hnid
      have hnfid' : ((y :: pairs.erase y).map Pend.fid).Nodup := (hpe.map Pend.fid).nodup hnfid
      simp only [List.map_cons, List.nodup_cons] at hnid' hnfid'
      have hqid : ∀ x ∈ pairs.erase y, x.id ≠ y.id := by
        intro x hx' he
        exact hnid'.1 (he ▸ List.mem_map_of_mem Pend.id hx')
      have hqfid : ∀ x ∈ pairs.erase y, x.fid ≠ y.fid := by
        intro x hx' he
        exact hnfid'.1 (he ▸ List.mem_map_of_mem Pend.fid hx')
      have hinv : ∀ x ∈ pairs.erase y, x.id < 2 ^ 32 ∧
          dictGet (handleMessage j w (Pend.msg y)).inflight x.id = some x.fid ∧
          dictGet (handleMessage j w (Pend.msg y)).futures x.fid = some none ∧
          (j x.pl).isSome := by
        intro x hx'
        obtain ⟨h1, h2, h3, h4⟩ := hx x (List.mem_of_mem_erase hx')
        refine ⟨h1, ?_, ?_, h4⟩
        · rw [hw₁]
          simpa [dictGet_delKey_ne _ _ _ (hqid x hx')] using h2
        · rw [hw₁]
          simpa [dictGet_setKey_ne _ _ _ _ (hqfid x hx')] using h3
      have hlen₁ : (handleMessage j w (Pend.msg y)).inflight.length =
          (pairs.erase y).length := by
        rw [hw₁]
        have hk := length_delKey w.inflight y.id (by rw [hyinf]; rfl)
        have hl := hpe.length_eq
        simp only [List.length_cons] at hl
        show (delKey w.inflight y.id).length = _
        omega
      obtain ⟨hres, hempty⟩ := ih (pairs.erase y) (handleMessage j w (Pend.msg y))
        hrest hnid'.2 hnfid'.2 hinv hlen₁
      have hstep : processAll j w (m :: rest) =
          processAll j (handleMessage j w (Pend.msg y)) rest := by
        rw [← hym]
        rfl
      constructor
      · intro x hxp
        have hxc : x ∈ y :: pairs.erase y := hpe.mem_iff.mp hxp
        rcases List.mem_cons.mp hxc with hxy | hxq
        · subst hxy
          rw [hstep, hv]
          exact processAll_resolved j rest _ x.fid v
            (by rw [hw₁]; exact dictGet_setKey_self _ _ _)
        · rw [hstep]
          exact hres x hxq
      · rw [hstep]
        exact hempty

theorem command_overflow {V : Type} (jd : V → String) (w : World V)
    (p : String) (v : V) (r : Bool)
    (hnone : dictGet w.inflight w.request_id = none)
    (hge : ¬ w.request_id < 2 ^ 32) :
    (command jd w p v r).2.2 = .error (.overflowError w.request_id) := by
  simp only [command]
  split
  · rename_i val heq
    rw [hnone] at heq
    cases heq
  · rw [if_neg hge]

theorem runIds_eq_range {V : Type} (jd : V → String)
    (reqs : List (String × V × Bool)) :
    ∀ w : World V, runIds jd w reqs = List.range' w.request_id reqs.length := by
  induction reqs with
  | nil => intro w; rfl
  | cons q rest ih =>
      intro w
      obtain ⟨p, v, r⟩ := q
      simp only [runIds, List.length_cons, List.range'_succ _ _ 1]
      rw [ih, command_request_id]

/-! ## The claims -/

/-- Claim C1: for every set of pending requests registered on one session
and any arrival order of their responses (each carrying the 4-byte
correlation identifier of one request), each caller's future is completed
with exactly the decoded payload of the response that carries its own
identifier, never with another request's payload. -/
theorem C1_routing_no_crosstalk {V : Type} (j : String → Option V)
    (msgs : List Msg) (pairs : List Pend) (w : World V)
    (hperm : msgs.Perm (pairs.map Pend.msg))
    (hnid : (pairs.map Pend.id).Nodup)
    (hnfid : (pairs.map Pend.fid).Nodup)
    (hx : ∀ x ∈ pairs, x.id < 2 ^ 32 ∧
      dictGet w.inflight x.id = some x.fid ∧
      dictGet w.futures x.fid = some none ∧ (j x.pl).isSome)
    (hlen : w.inflight.length = pairs.length) :
    ∀ x ∈ pairs,
      dictGet (processAll j w msgs).futures x.fid = some (j x.pl) :=
  (processAll_spec j msgs pairs w hperm hnid hnfid hx hlen).1

/-- Witness for C1: two pending requests on `wPending2` whose responses
arrive in reverse order; each future ends up holding its own payload. -/
theorem C1_routing_no_crosstalk_witness :
    dictGet (processAll jsonNat wPending2
      [mkRespMsg 1 "11", mkRespMsg 0 "10"]).futures 0 = some (jsonNat "10") ∧
    dictGet (processAll jsonNat wPending2
      [mkRespMsg 1 "11", mkRespMsg 0 "10"]).futures 1 = some (jsonNat "11") :=
  ⟨C1_routing_no_crosstalk jsonNat [mkRespMsg 1 "11", mkRespMsg 0 "10"]
      [⟨0, 0, "10"⟩, ⟨1, 1, "11"⟩] wPending2
      (by decide) (by decide) (by decide) (by decide) (by decide)
      ⟨0, 0, "10"⟩ (by decide),
   C1_routing_no_crosstalk jsonNat [mkRespMsg 1 "11", mkRespMsg 0 "10"]
      [⟨0, 0, "10"⟩, ⟨1, 1, "11"⟩] wPending2
      (by decide) (by decide) (by decide) (by decide) (by decide)
      ⟨1, 1, "11"⟩ (by decide)⟩

/-- Claim C2 as stated is false at a concrete input: delivering a response
whose correlation identifier (7) is not registered makes `_handle_response`
raise a KeyError (modelled `Except.error`), not silently discard it. -/
theorem C2_counterexample :
    handle_response jsonNat wPending2 ⟨some [toBytesBE 4 7]⟩ "10" =
      .error .keyErrorInflight := by decide

/-- Claim C2 amended: for every inbound response whose correlation
identifier is not currently registered, the handler raises an uncaught
KeyError (it is NOT silently discarded), and the session state — every
other pending request's registry entry and completion handle — is left
completely unchanged, so no caller observes the error through its future. -/
theorem C2_unknown_id_raises_keyerror {V : Type} (j : String → Option V)
    (w : World V) (bs : List Nat) (t : List (List Nat)) (pl : String)
    (h : dictGet w.inflight (intFromBytesBE bs) = none) :
    handle_response j w ⟨some (bs :: t)⟩ pl = .error .keyErrorInflight ∧
    handleMessage j w ⟨⟨some (bs :: t)⟩, pl⟩ = w := by
  have h1 : handle_response j w ⟨some (bs :: t)⟩ pl = .error .keyErrorInflight := by
    unfold handle_response
    simp [h]
  refine ⟨h1, ?_⟩
  unfold handleMessage
  simp [h1]

/-- Witness for the amended C2, at correlation identifier 7 on a session
with requests 0 and 1 pending. -/
theorem C2_unknown_id_raises_keyerror_witness :
    dictGet wPending2.inflight (intFromBytesBE (toBytesBE 4 7)) = none ∧
    (handle_response jsonNat wPending2 ⟨some [toBytesBE 4 7]⟩ "10" =
        .error .keyErrorInflight ∧
      handleMessage jsonNat wPending2 ⟨⟨some [toBytesBE 4 7]⟩, "10"⟩ =
        wPending2) :=
  ⟨by decide,
   C2_unknown_id_raises_keyerror jsonNat wPending2 (toBytesBE 4 7) [] "10"
     (by decide)⟩

/-- Claim C3 as stated is false at a concrete input: with the counter at
2^32 - 1, that identifier is allocated and the counter advances to 2^32;
the NEXT allocation returns 2^32 — not 0 — and raises OverflowError from
the 4-byte encoding (the counter never wraps). -/
theorem C3_counterexample :
    ((command dumpNat wAtMax "a" 5 true).1.request_id = 4294967296) ∧
    (command dumpNat (command dumpNat wAtMax "a" 5 true).1 "a" 6 true).2.2 =
      .error (.overflowError 4294967296) := by decide

/-- Claim C3 amended: request identifiers are assigned monotonically per
session starting at 0, and allocation returns the current counter value and
advances the counter by one — but WITHOUT wrapping at 2^32: once the
counter exceeds the 4-byte range the allocation raises OverflowError
carrying that identifier instead of returning 0. -/
theorem C3_allocation_no_wrap {V : Type} (jd : V → String) (w : World V)
    (p : String) (v : V) (r : Bool) :
    ((command jd w p v r).1.request_id = w.request_id + 1) ∧
    (∀ out, (command jd w p v r).2.2 = .ok out → out.1 = w.request_id) ∧
    (2 ^ 32 ≤ w.request_id → dictGet w.inflight w.request_id = none →
      (command jd w p v r).2.2 = .error (.overflowError w.request_id)) := by
  refine ⟨command_request_id jd w p v r, ?_, ?_⟩
  · intro out h
    exact (command_ok_inv jd w p v r out h).2.2.1
  · intro hge hnone
    exact command_overflow jd w p v r hnone (by omega)

/-- Witness for the amended C3 at the concrete session `wOver` whose
counter sits just past the 4-byte range. -/
theorem C3_allocation_no_wrap_witness :
    (2 ^ 32 ≤ wOver.request_id ∧ dictGet wOver.inflight wOver.request_id = none) ∧
    ((command dumpNat wOver "a" 5 true).1.request_id = wOver.request_id + 1) ∧
    ((command dumpNat wOver "a" 5 true).2.2 =
      .error (.overflowError wOver.request_id)) :=
  ⟨⟨by decide, by decide⟩,
   (C3_allocation_no_wrap dumpNat wOver "a" 5 true).1,
   (C3_allocation_no_wrap dumpNat wOver "a" 5 true).2.2 (by decide) (by decide)⟩

/-- Claim C4 as stated is false at two concrete inputs: with correlation
metadata absent the handler raises a KeyError instead of discarding without
raising; and a message whose correlation data is 5 bytes — not exactly 4 —
is not rejected at all: it is decoded and resolves registered request 0,
affecting a registered pending request. -/
theorem C4_counterexample :
    handle_response jsonNat wPending2 ⟨none⟩ "10" = .error .keyErrorCorrelation ∧
    dictGet (handleMessage jsonNat wPending2
        ⟨⟨some [[0, 0, 0, 0, 0]]⟩, "10"⟩).futures 0 = some (some 10) := by decide

/-- Claim C4 amended: the handler validates nothing about the correlation
metadata and no MalformedCorrelationData classification exists: absent
metadata raises an uncaught KeyError and an empty metadata list an uncaught
IndexError (in both cases the state, hence every registered pending
request, is unchanged); a present first metadata value of ANY byte length
is decoded big-endian and processed as a normal response. -/
theorem C4_no_metadata_validation {V : Type} (j : String → Option V)
    (w : World V) (pl : String) :
    (handle_response j w ⟨none⟩ pl = .error .keyErrorCorrelation ∧
      handleMessage j w ⟨⟨none⟩, pl⟩ = w) ∧
    (handle_response j w ⟨some []⟩ pl = .error .indexError ∧
      handleMessage j w ⟨⟨some []⟩, pl⟩ = w) ∧
    (∀ bs t fid v, dictGet w.inflight (intFromBytesBE bs) = some fid →
      j pl = some v → dictGet w.futures fid = some none →
      handleMessage j w ⟨⟨some (bs :: t)⟩, pl⟩ =
        { w with futures := setKey w.futures fid (some v),
                 inflight := delKey w.inflight (intFromBytesBE bs) }) := by
  refine ⟨⟨rfl, rfl⟩, ⟨rfl, rfl⟩, ?_⟩
  intro bs t fid v h1 h2 h3
  exact handleMessage_ok j w fid pl v t bs h1 h2 h3

/-- Witness for the amended C4: a 5-byte correlation value resolves pending
request 0 of `wPending2` exactly as a 4-byte one would. -/
theorem C4_no_metadata_validation_witness :
    (dictGet wPending2.inflight (intFromBytesBE [0, 0, 0, 0, 0]) = some 0 ∧
      jsonNat "10" = some 10 ∧ dictGet wPending2.futures 0 = some none) ∧
    handleMessage jsonNat wPending2 ⟨⟨some [[0, 0, 0, 0, 0]]⟩, "10"⟩ =
      { wPending2 with
          futures := setKey wPending2.futures 0 (some 10),
          inflight := delKey wPending2.inflight (intFromBytesBE [0, 0, 0, 0, 0]) } :=
  ⟨⟨by decide, by decide, by decide⟩,
   (C4_no_metadata_validation jsonNat wPending2 "10").2.2 [0, 0, 0, 0, 0] [] 0 10
     (by decide) (by decide) (by decide)⟩

/-- Claim C5: in every execution of `command` that reaches the publish, the
pending request is registered strictly before the publish is issued: in the
event trace the first `registered` event strictly precedes the first
`published` event, and a `published` event does occur. -/
theorem C5_register_before_publish {V : Type} (jd : V → String) (w : World V)
    (p : String) (v : V) (r : Bool) (out : Nat × Nat × PublishMsg)
    (h : (command jd w p v r).2.2 = .ok out) :
    ((command jd w p v r).2.1.findIdx CmdEvent.isRegistered <
      (command jd w p v r).2.1.findIdx CmdEvent.isPublished) ∧
    (command jd w p v r).2.1.findIdx CmdEvent.isPublished <
      (command jd w p v r).2.1.length := by
  have htr := (command_ok_inv jd w p v r out h).2.2.2.2.2.1
  rw [htr]
  simp [List.findIdx_cons, CmdEvent.isRegistered, CmdEvent.isPublished]

/-- Witness for C5: one successful `command` on a fresh session. -/
theorem C5_register_before_publish_witness :
    ((command dumpNat (mkSession Nat "u" "p").1 "afe/0" 2 true).2.2 =
      .ok (0, 0, ⟨"p/settings/afe/0", "2", 0, true, "p/response/u",
        toBytesBE 4 0⟩)) ∧
    ((command dumpNat (mkSession Nat "u" "p").1 "afe/0" 2 true).2.1.findIdx
        CmdEvent.isRegistered <
      (command dumpNat (mkSession Nat "u" "p").1 "afe/0" 2 true).2.1.findIdx
        CmdEvent.isPublished) ∧
    (command dumpNat (mkSession Nat "u" "p").1 "afe/0" 2 true).2.1.findIdx
        CmdEvent.isPublished <
      (command dumpNat (mkSession Nat "u" "p").1 "afe/0" 2 true).2.1.length := by
  have h : (command dumpNat (mkSession Nat "u" "p").1 "afe/0" 2 true).2.2 =
      .ok (0, 0, ⟨"p/settings/afe/0", "2", 0, true, "p/response/u",
        toBytesBE 4 0⟩) := by decide
  exact ⟨h, C5_register_before_publish dumpNat _ "afe/0" 2 true _ h⟩

/-- Claim C6 as stated is false at a concrete input: a response for the
registered identifier 0 whose payload does not decode makes the handler
raise the decode error — it is not logged-and-discarded without raising. -/
theorem C6_counterexample :
    handle_response jsonNat wPending2 ⟨some [toBytesBE 4 0]⟩ "notjson" =
      .error .jsonDecodeError := by decide

/-- Claim C6 amended: for every inbound response whose correlation
identifier is registered but whose payload fails to decode, the handler
raises the uncaught decode error; the registry entry is not removed and the
waiting caller's completion handle is not resolved — the state is unchanged
and the caller is left pending. -/
theorem C6_decode_failure_raises {V : Type} (j : String → Option V)
    (w : World V) (bs : List Nat) (t : List (List Nat)) (pl : String)
    (fid : Nat)
    (hinf : dictGet w.inflight (intFromBytesBE bs) = some fid)
    (hj : j pl = none) :
    handle_response j w ⟨some (bs :: t)⟩ pl = .error .jsonDecodeError ∧
    handleMessage j w ⟨⟨some (bs :: t)⟩, pl⟩ = w := by
  have h1 : handle_response j w ⟨some (bs :: t)⟩ pl =
      .error .jsonDecodeError := by
    unfold handle_response
    simp [hinf, hj]
  refine ⟨h1, ?_⟩
  unfold handleMessage
  simp [h1]

/-- Witness for the amended C6: an undecodable payload for registered
request 0 of `wPending2`. -/
theorem C6_decode_failure_raises_witness :
    (dictGet wPending2.inflight (intFromBytesBE (toBytesBE 4 0)) = some 0 ∧
      jsonNat "notjson" = none) ∧
    (handle_response jsonNat wPending2 ⟨some [toBytesBE 4 0]⟩ "notjson" =
        .error .jsonDecodeError ∧
      handleMessage jsonNat wPending2 ⟨⟨some [toBytesBE 4 0]⟩, "notjson"⟩ =
        wPending2) :=
  ⟨⟨by decide, by decide⟩,
   C6_decode_failure_raises jsonNat wPending2 (toBytesBE 4 0) [] "notjson" 0
     (by decide) (by decide)⟩

/-- Claim C7: on a freshly constructed session, successive `command`
invocations are assigned the identifiers 0, 1, 2, ... in order of
allocation (the first two calls receive 0 and 1 respectively), and all
identifiers of an allocation sequence are pairwise distinct. -/
theorem C7_fresh_ids_sequential {V : Type} (jd : V → String)
    (uuid pfx : String) (reqs : List (String × V × Bool)) :
    runIds jd (mkSession V uuid pfx).1 reqs = List.range reqs.length ∧
    List.Pairwise (· ≠ ·) (runIds jd (mkSession V uuid pfx).1 reqs) ∧
    (2 ≤ reqs.length →
      (runIds jd (mkSession V uuid pfx).1 reqs).take 2 = [0, 1]) := by
  have h0 : runIds jd (mkSession V uuid pfx).1 reqs =
      List.range reqs.length := by
    rw [runIds_eq_range]
    rw [List.range_eq_range' reqs.length]
    rfl
  refine ⟨h0, ?_, ?_⟩
  · rw [h0]
    exact List.nodup_range reqs.length
  · intro h2
    rw [h0, List.take_range]
    rw [Nat.min_eq_left h2]
    rfl

/-- Witness for C7: two `command` calls on a fresh session receive the
identifiers 0 and 1 in order of allocation. -/
theorem C7_fresh_ids_sequential_witness :
    runIds dumpNat (mkSession Nat "u" "p").1
      [("a", 1, true), ("b", 2, true)] = [0, 1] ∧
    (runIds dumpNat (mkSession Nat "u" "p").1
      [("a", 1, true), ("b", 2, true)]).take 2 = [0, 1] :=
  have h := C7_fresh_ids_sequential dumpNat "u" "p"
    [("a", 1, true), ("b", 2, true)]
  ⟨h.1.trans (by decide), h.2.2 (by decide)⟩

/-- Claim C8: resolving an identifier present in the registry completes its
handle with the decoded payload and removes exactly that entry (afterwards
the identifier is absent, every other entry is untouched and the size has
dropped by one); and once every registered request has been resolved the
registry is empty. -/
theorem C8_resolve_removes_entry {V : Type} (j : String → Option V) :
    (∀ (w : World V) (id fid : Nat) (pl : String) (v : V),
      dictGet w.inflight id = some fid →
      dictGet w.futures fid = some none →
      j pl = some v → id < 2 ^ 32 →
      (w.inflight.map Prod.fst).Nodup →
      dictGet (handleMessage j w (mkRespMsg id pl)).futures fid =
        some (some v) ∧
      dictGet (handleMessage j w (mkRespMsg id pl)).inflight id = none ∧
      (∀ id', id' ≠ id →
        dictGet (handleMessage j w (mkRespMsg id pl)).inflight id' =
          dictGet w.inflight id') ∧
      (handleMessage j w (mkRespMsg id pl)).inflight.length + 1 =
        w.inflight.length) ∧
    (∀ (msgs : List Msg) (pairs : List Pend) (w : World V),
      msgs.Perm (pairs.map Pend.msg) →
      (pairs.map Pend.id).Nodup →
      (pairs.map Pend.fid).Nodup →
      (∀ x ∈ pairs, x.id < 2 ^ 32 ∧
        dictGet w.inflight x.id = some x.fid ∧
        dictGet w.futures x.fid = some none ∧ (j x.pl).isSome) →
      w.inflight.length = pairs.length →
      (processAll j w msgs).inflight = []) := by
  constructor
  · intro w id fid pl v hinf hfut hj hlt hnd
    have hw : handleMessage j w (mkRespMsg id pl) =
        { w with futures := setKey w.futures fid (some v),
                 inflight := delKey w.inflight id } := by
      have hh := handleMessage_ok j w fid pl v [] (toBytesBE 4 id)
        (by rw [roundtrip_corr _ hlt]; exact hinf) hj hfut
      rw [roundtrip_corr _ hlt] at hh
      exact hh
    rw [hw]
    refine ⟨dictGet_setKey_self _ _ _, dictGet_delKey_self _ _ hnd, ?_, ?_⟩
    · intro id' hne
      exact dictGet_delKey_ne _ _ _ hne
    · exact length_delKey _ _ (by rw [hinf]; rfl)
  · intro msgs pairs w hperm hnid hnfid hx hlen
    exact (processAll_spec j msgs pairs w hperm hnid hnfid hx hlen).2

/-- Witness for C8: resolving request 0 of `wPending2` completes future 0
with the decoded payload, removes entry 0 and shrinks the registry by one. -/
theorem C8_resolve_removes_entry_witness :
    (dictGet wPending2.inflight 0 = some 0 ∧
      (wPending2.inflight.map Prod.fst).Nodup) ∧
    dictGet (handleMessage jsonNat wPending2 (mkRespMsg 0 "10")).futures 0 =
      some (some 10) ∧
    dictGet (handleMessage jsonNat wPending2 (mkRespMsg 0 "10")).inflight 0 =
      none ∧
    (handleMessage jsonNat wPending2 (mkRespMsg 0 "10")).inflight.length + 1 =
      wPending2.inflight.length :=
  have h := (C8_resolve_removes_entry jsonNat).1 wPending2 0 0 "10" 10
    (by decide) (by decide) (by decide) (by decide) (by decide)
  ⟨⟨by decide, by decide⟩, h.1, h.2.1, h.2.2.2⟩

/-- Claim C9: for every list of KEY=VALUE settings, the value handed to
`sys.exit` equals the `code` status field of the first response with
nonzero status — 0 when every response has status 0 — and the settings sent
are exactly those up to and including the first failing one. -/
theorem C9_exit_code_first_failure (respond : String → String → DevResponse)
    (settings : List (String × String)) :
    configure_settings respond settings =
      (((settings.map (fun s => (respond s.1 s.2).code)).find?
          (fun c => c != 0)).getD 0,
        settings.take
          ((settings.map (fun s => (respond s.1 s.2).code)).findIdx
            (fun c => c != 0) + 1)) := by
  induction settings with
  | nil => rfl
  | cons s rest ih =>
      obtain ⟨path, value⟩ := s
      by_cases hc : (respond path value).code = 0
      · simp [configure_settings, hc, List.find?, List.findIdx_cons, ih]
      · have hb : ((respond path value).code != 0) = true := by
          simp [bne_iff_ne, hc]
        simp [configure_settings, hc, hb, List.find?, List.findIdx_cons]

/-- Claim C10: when `command` fails after allocating its identifier and
before publishing (the duplicate-identifier assert fires, or the 4-byte
encoding raises OverflowError), the counter nevertheless remains advanced
by one, no inflight entry was added, no future was created, and the session
identity and topic prefix are unchanged. -/
theorem C10_failed_command_frame {V : Type} (jd : V → String) (w : World V)
    (p : String) (v : V) (r : Bool) (e : CommandError)
    (h : (command jd w p v r).2.2 = .error e) :
    (command jd w p v r).1.request_id = w.request_id + 1 ∧
    (command jd w p v r).1.inflight = w.inflight ∧
    (command jd w p v r).1.futures = w.futures ∧
    (command jd w p v r).1.nextFut = w.nextFut ∧
    (command jd w p v r).1.uuid = w.uuid ∧
    (command jd w p v r).1.pfx = w.pfx := by
  have hw := (command_error_inv jd w p v r e h).1
  rw [hw]
  exact ⟨rfl, rfl, rfl, rfl, rfl, rfl⟩

/-- Witness for C10: the duplicate-identifier assert fires on `wDup`; the
counter has still advanced and the registry and session are untouched. -/
theorem C10_failed_command_frame_witness :
    ((command dumpNat wDup "a" 1 true).2.2 = .error (.assertionError 0)) ∧
    (command dumpNat wDup "a" 1 true).1.request_id = wDup.request_id + 1 ∧
    (command dumpNat wDup "a" 1 true).1.inflight = wDup.inflight ∧
    (command dumpNat wDup "a" 1 true).1.futures = wDup.futures :=
  have h : (command dumpNat wDup "a" 1 true).2.2 =
      .error (.assertionError 0) := by decide
  have hf := C10_failed_command_frame dumpNat wDup "a" 1 true _ h
  ⟨h, hf.1, hf.2.1, hf.2.2.1⟩

end Miniconf
